import Mathlib

/-!
Shallow embedding of the trajectory-analysis core of `gpsToKml.py`:
the cleaner (`clean` with `checkStraight`), the landmark detector
(`decorate` with `calculateLeft`), and the duration aggregators
(`moving_duration`, `total_duration`).

Coordinates are modelled as real numbers, speeds as rationals (they are
only ever compared against constant thresholds), timestamps as optional
integers counting whole seconds (the Python code subtracts datetimes and
uses whole-second differences).
-/

namespace GpsToKml

/-- A single position fix, mirroring the Python `TrackPoint` class. -/
structure TrackPoint where
  lat : ℝ
  lon : ℝ
  speed_knots : ℚ
  timestamp : Option ℤ

/-- Fallback point for safe list indexing; the source code only indexes
in range, so this value never influences results on in-range indices. -/
def dfltPoint : TrackPoint := ⟨0, 0, 0, none⟩

/-- `pow(10, -9.5)`, the default `tolerance` of `checkStraight`. -/
noncomputable def tolerance : ℝ := (10 : ℝ) ^ (-9.5 : ℝ)

open Classical in
/-- `checkStraight(a, b, c)`: numerically collinear and tightly aligned,
after rejecting near-zero-length segment vectors.  The pairs carry
coordinates in the order the cleaner passes them: `(lat, lon)`. -/
def checkStraight (a b c : ℝ × ℝ) : Prop :=
  let ux := b.1 - a.1
  let uy := b.2 - a.2
  let vx := c.1 - b.1
  let vy := c.2 - b.2
  let mag_u_sq := ux * ux + uy * uy
  let mag_v_sq := vx * vx + vy * vy
  if mag_u_sq < tolerance ∨ mag_v_sq < tolerance then False
  else
    let wedge := ux * vy - uy * vx
    let dot_product := ux * vx + uy * vy
    let cos_theta := dot_product / (Real.sqrt mag_u_sq * Real.sqrt mag_v_sq)
    |wedge| < tolerance ∧ cos_theta > 0.999

open Classical in
/-- `calculateLeft(a, b, c)`: left turn when the normalized cross product
exceeds `min_sin = 0.3`, after rejecting segments shorter than
`min_segment_length = 0.00005`.  The pairs carry `(lon, lat)`. -/
def calculateLeft (a b c : ℝ × ℝ) : Prop :=
  let ux := b.1 - a.1
  let uy := b.2 - a.2
  let vx := c.1 - b.1
  let vy := c.2 - b.2
  let len_u := Real.sqrt (ux * ux + uy * uy)
  let len_v := Real.sqrt (vx * vx + vy * vy)
  if len_u < 0.00005 ∨ len_v < 0.00005 then False
  else (ux * vy - uy * vx) / (len_u * len_v) > 0.3

/-- Index of the last point with speed strictly above 5 knots, i.e. the
`end_idx` computed by the backward while-loop in `clean` (`none` stands
for the loop running off the front, Python's `end_idx == -1`). -/
def lastMoving : List TrackPoint → Option ℕ
  | [] => none
  | p :: ps =>
    match lastMoving ps with
    | some i => some (i + 1)
    | none => if p.speed_knots > 5 then some 0 else none

/-- Loop state of the forward pass of `clean`: the `start_parked` flag,
the `last_kept` point, and the accumulated `clean_points`. -/
structure CleanState where
  start_parked : Bool
  last_kept : Option TrackPoint
  acc : List TrackPoint

open Classical in
/-- One iteration of the forward loop of `clean` at raw index `p`. -/
noncomputable def cleanStep (points : List TrackPoint) (end_idx : ℕ)
    (s : CleanState) (p : ℕ) : CleanState :=
  let pt := points.getD p dfltPoint
  if pt.speed_knots ≤ 5 ∧ s.start_parked = false then s
  else
    let s1 : CleanState := { s with start_parked := true }
    match s1.last_kept with
    | none => { s1 with last_kept := some pt, acc := s1.acc ++ [pt] }
    | some lk =>
      if |lk.lat - pt.lat| > 0.25 ∨ |lk.lon - pt.lon| > 0.25 then s1
      else if p < end_idx ∧
          checkStraight
            ((points.getD (p - 1) dfltPoint).lat, (points.getD (p - 1) dfltPoint).lon)
            (pt.lat, pt.lon)
            ((points.getD (p + 1) dfltPoint).lat, (points.getD (p + 1) dfltPoint).lon)
        then s1
      else { s1 with last_kept := some pt, acc := s1.acc ++ [pt] }

/-- `clean(points)`: trailing-parked trim, then the forward pass with
leading-parked skip, jump rejection and straight-run thinning. -/
noncomputable def clean (points : List TrackPoint) : List TrackPoint :=
  match lastMoving points with
  | none => []
  | some e =>
    if e = 0 then []
    else (List.foldl (cleanStep points e) ⟨false, none, []⟩ (List.range (e + 1))).acc

/-- Componentwise arithmetic mean of a list of coordinate pairs, the
`np.mean(..., axis=0)` of the Python code. -/
noncomputable def meanPair (l : List (ℝ × ℝ)) : ℝ × ℝ :=
  (((l.map Prod.fst).sum) / l.length, ((l.map Prod.snd).sum) / l.length)

/-- The `left` flag computed for scan index `i` in `decorate`: `False`
below the turn-eligible speed 3, otherwise `calculateLeft` on the
`(lon, lat)` pairs of the points two indices away. -/
def leftAt (points : List TrackPoint) (i : ℕ) : Prop :=
  let b := points.getD i dfltPoint
  if b.speed_knots < 3 then False
  else
    calculateLeft
      ((points.getD (i - 2) dfltPoint).lon, (points.getD (i - 2) dfltPoint).lat)
      (b.lon, b.lat)
      ((points.getD (i + 2) dfltPoint).lon, (points.getD (i + 2) dfltPoint).lat)

/-- Scan state of `decorate`: emitted stop landmarks, the open stop
cluster buffer, emitted left-turn landmarks, the open turn buffer. -/
structure DetectState where
  stops : List (ℝ × ℝ)
  stop_sight : List (ℝ × ℝ)
  left_turns : List (ℝ × ℝ)
  left_sight : List (ℝ × ℝ)

/-- The stop-detection section of the `decorate` loop body at index `i`:
append a parked point's coordinates to the stop cluster buffer, or flush
the non-empty buffer as one mean landmark when the point moves. -/
noncomputable def stopScan (points : List TrackPoint) (s : DetectState) (i : ℕ) :
    DetectState :=
  let b := points.getD i dfltPoint
  if b.speed_knots ≤ 5 then { s with stop_sight := s.stop_sight ++ [(b.lat, b.lon)] }
  else if s.stop_sight ≠ [] then
    { s with stops := s.stops ++ [meanPair s.stop_sight], stop_sight := [] }
  else s

open Classical in
/-- The left-turn section of the `decorate` loop body at index `i`:
append a left-classified point's coordinates to the turn cluster buffer,
or flush the non-empty buffer as one mean landmark. -/
noncomputable def turnScan (points : List TrackPoint) (s : DetectState) (i : ℕ) :
    DetectState :=
  let b := points.getD i dfltPoint
  if leftAt points i then { s with left_sight := s.left_sight ++ [(b.lat, b.lon)] }
  else if s.left_sight ≠ [] then
    { s with left_turns := s.left_turns ++ [meanPair s.left_sight], left_sight := [] }
  else s

/-- One iteration of the `decorate` scan at index `i`: stop clustering
followed by left-turn clustering. -/
noncomputable def detectStep (points : List TrackPoint) (s : DetectState) (i : ℕ) :
    DetectState :=
  turnScan points (stopScan points s i) i

/-- The end-of-scan flushes of `decorate`: any still-open stop buffer,
then any still-open turn buffer, each emitted as one mean landmark. -/
noncomputable def finalFlush (s : DetectState) : DetectState :=
  let s1 :=
    if s.stop_sight ≠ [] then
      { s with stops := s.stops ++ [meanPair s.stop_sight], stop_sight := [] }
    else s
  if s1.left_sight ≠ [] then
    { s1 with left_turns := s1.left_turns ++ [meanPair s1.left_sight], left_sight := [] }
  else s1

/-- `decorate(points)`: returns `(stops, left_turns)`.  Trajectories
shorter than 5 points yield two empty lists; otherwise the scan runs
over indices `2 .. n-3` and both open buffers are flushed at the end. -/
noncomputable def decorate (points : List TrackPoint) : List (ℝ × ℝ) × List (ℝ × ℝ) :=
  let n := points.length
  if n < 5 then ([], [])
  else
    let s := finalFlush
      (List.foldl (detectStep points) ⟨[], [], [], []⟩ (List.range' 2 (n - 4)))
    (s.stops, s.left_turns)

/-- Result of a duration aggregator: the Python functions return either
the integer `0` or a formatted string, so the embedding tags the two
shapes explicitly. -/
inductive DurResult where
  | num (n : ℤ)
  | str (s : String)
deriving DecidableEq

/-- Python `f"{n:02}"` for the integer fields of the duration string. -/
def pad2 (n : ℤ) : String :=
  let s := toString n
  if s.length < 2 then "0" ++ s else s

/-- The `divmod`-based `HH:MM:SS` rendering shared by both aggregators
(`divmod` on integers is floor division, `Int.fdiv`/`Int.fmod`). -/
def formatHMS (total : ℤ) : String :=
  let hours := Int.fdiv total 3600
  let remainder := Int.fmod total 3600
  let minutes := Int.fdiv remainder 60
  let secs := Int.fmod remainder 60
  pad2 hours ++ ":" ++ pad2 minutes ++ ":" ++ pad2 secs

/-- The contribution of one adjacent pair to the loop of
`moving_duration`: skipped (zero) when either timestamp is missing, the
elapsed seconds when either speed exceeds 2 knots, zero otherwise. -/
def pairSeconds (a b : TrackPoint) : ℤ :=
  match a.timestamp, b.timestamp with
  | some ta, some tb =>
    if a.speed_knots > 2 ∨ b.speed_knots > 2 then tb - ta else 0
  | _, _ => 0

/-- The accumulator of the loop in `moving_duration`, visiting each
adjacent pair `points[p-1], points[p]` in order. -/
def movingSeconds : List TrackPoint → ℤ
  | a :: b :: rest => pairSeconds a b + movingSeconds (b :: rest)
  | _ => 0

/-- `moving_duration(points)`: the integer `0` for fewer than two
points, otherwise the formatted accumulated moving time. -/
def moving_duration (points : List TrackPoint) : DurResult :=
  if points.length < 2 then .num 0
  else .str (formatHMS (movingSeconds points))

/-- `total_duration(points)`: the integer `0` for fewer than two points,
otherwise last timestamp minus first, formatted.  The Python code
subtracts the two timestamps unchecked and raises when either is
missing; that failure is modelled as `none`. -/
def total_duration (points : List TrackPoint) : Option DurResult :=
  if points.length < 2 then some (.num 0)
  else
    match (points.getD 0 dfltPoint).timestamp, (points.getLastD dfltPoint).timestamp with
    | some ts, some te => some (.str (formatHMS (te - ts)))
    | _, _ => none

/-! ## Duration aggregation: claims C1, C2, C5, C10 -/

/-- Declarative restatement (from the spec wording) of the moving-time
sum: over every adjacent pair of the sequence, the pair contributes its
elapsed seconds when both timestamps are present and either speed
exceeds 2 knots, and zero otherwise. -/
def movingPairSpec (points : List TrackPoint) : ℤ :=
  ((points.zip points.tail).map fun ab => pairSeconds ab.1 ab.2).sum

theorem movingSeconds_eq_pairSpec :
    ∀ points : List TrackPoint, movingSeconds points = movingPairSpec points
  | [] => by simp [movingSeconds, movingPairSpec]
  | [a] => by simp [movingSeconds, movingPairSpec]
  | a :: b :: rest => by
    have ih := movingSeconds_eq_pairSpec (b :: rest)
    simp only [movingSeconds, movingPairSpec, List.tail_cons, List.zip_cons_cons,
      List.map_cons, List.sum_cons] at ih ⊢
    rw [ih]

/-- C5: for a trajectory of at least two points, the moving duration is
the formatted sum, over every adjacent pair with both timestamps present
and at least one speed above 2 knots, of the pairwise elapsed seconds;
pairs with a missing timestamp contribute zero (the function is total,
so no error is raised on them). -/
theorem moving_duration_eq_pair_sum (points : List TrackPoint)
    (h : 2 ≤ points.length) :
    moving_duration points = DurResult.str (formatHMS (movingPairSpec points)) := by
  have hlen : ¬ points.length < 2 := by omega
  simp [moving_duration, hlen, movingSeconds_eq_pairSpec]

/-- Concrete three-point trajectory exercising a missing timestamp. -/
def c5ex : List TrackPoint :=
  [⟨0, 0, 3, none⟩, ⟨0, 0, 3, some 4⟩, ⟨0, 0, 0, some 9⟩]

theorem moving_duration_eq_pair_sum_witness :
    moving_duration c5ex = DurResult.str (formatHMS (movingPairSpec c5ex)) :=
  moving_duration_eq_pair_sum c5ex (by decide)

/-- C1 (amended): `moving_duration` yields the numeric zero sentinel
exactly when the trajectory has fewer than two points; with two or more
points it always yields a formatted `HH:MM:SS` string, even when no
adjacent pair qualifies for moving time. -/
theorem moving_duration_zero_sentinel_only_short (points : List TrackPoint) :
    (points.length < 2 → moving_duration points = DurResult.num 0) ∧
    (2 ≤ points.length → ∃ s, moving_duration points = DurResult.str s) := by
  constructor
  · intro h
    simp [moving_duration, h]
  · intro h
    have hlen : ¬ points.length < 2 := by omega
    exact ⟨formatHMS (movingSeconds points), by simp [moving_duration, hlen]⟩

/-- Two points, both stopped, both timestamped: no pair qualifies. -/
def c1ex : List TrackPoint := [⟨0, 0, 0, some 0⟩, ⟨0, 0, 0, some 5⟩]

/-- C1 counterexample: on a two-point trajectory in which no adjacent
pair qualifies for moving time, `moving_duration` returns the formatted
string `"00:00:00"`, not the numeric zero sentinel. -/
theorem moving_duration_string_on_no_pair :
    moving_duration c1ex = DurResult.str "00:00:00" ∧
    moving_duration c1ex ≠ DurResult.num 0 := by decide

/-- Two points moving above 2 knots, one second apart. -/
def c1exB : List TrackPoint := [⟨0, 0, 6, some 0⟩, ⟨0, 0, 6, some 3⟩]

theorem moving_duration_zero_sentinel_only_short_witness :
    moving_duration ([] : List TrackPoint) = DurResult.num 0 ∧
    ∃ s, moving_duration c1exB = DurResult.str s :=
  ⟨(moving_duration_zero_sentinel_only_short []).1 (by decide),
   (moving_duration_zero_sentinel_only_short c1exB).2 (by decide)⟩

/-- The synthetic trajectory of §8 of the spec: 5 points at speed 0,
then 5 points at speed 20, timestamped one second apart from epoch 0. -/
def c2ex : List TrackPoint :=
  [⟨0, 0, 0, some 0⟩, ⟨0, 0, 0, some 1⟩, ⟨0, 0, 0, some 2⟩, ⟨0, 0, 0, some 3⟩,
   ⟨0, 0, 0, some 4⟩, ⟨0, 0, 20, some 5⟩, ⟨0, 0, 20, some 6⟩, ⟨0, 0, 20, some 7⟩,
   ⟨0, 0, 20, some 8⟩, ⟨0, 0, 20, some 9⟩]

/-- C2 counterexample: on the synthetic trajectory the accumulated
moving time is 5 seconds, not 4 = one fewer than the count of moving
points; the pair bridging the stopped and the moving half also
qualifies, because its second point exceeds 2 knots. -/
theorem synthetic_moving_not_four :
    movingSeconds c2ex = 5 ∧ movingSeconds c2ex ≠ 4 := by decide

/-- C2 (amended): the synthetic trajectory yields a moving duration of
exactly 5 seconds (`"00:00:05"`, equal to the count of moving points)
and a total duration of 9 seconds (`"00:00:09"`). -/
theorem synthetic_durations :
    moving_duration c2ex = DurResult.str "00:00:05" ∧
    total_duration c2ex = some (DurResult.str "00:00:09") := by decide

theorem pairSeconds_le (a b : TrackPoint) (ta tb : ℤ)
    (hta : a.timestamp = some ta) (htb : b.timestamp = some tb)
    (hle : ta ≤ tb) : pairSeconds a b ≤ tb - ta := by
  simp only [pairSeconds, hta, htb]
  split
  · omega
  · omega

theorem movingSeconds_le_span :
    ∀ points : List TrackPoint,
      (∀ p ∈ points, p.timestamp ≠ none) →
      List.Chain' (fun a b => a.timestamp.getD 0 ≤ b.timestamp.getD 0) points →
      movingSeconds points ≤
        (points.getLastD dfltPoint).timestamp.getD 0 -
          (points.getD 0 dfltPoint).timestamp.getD 0
  | [] => by intro _ _; simp [movingSeconds, dfltPoint, List.getLastD]
  | [a] => by intro _ _; simp [movingSeconds, List.getLastD]
  | a :: b :: rest => by
    intro hts hchain
    obtain ⟨ta, hta⟩ := Option.ne_none_iff_exists'.mp (hts a (by simp))
    obtain ⟨tb, htb⟩ := Option.ne_none_iff_exists'.mp (hts b (by simp))
    rw [List.chain'_cons] at hchain
    have hab : ta ≤ tb := by
      have := hchain.1
      rwa [hta, htb] at this
    have ih := movingSeconds_le_span (b :: rest) (fun p hp => hts p (by simp [hp]))
      hchain.2
    have hlast : (a :: b :: rest).getLastD dfltPoint = (b :: rest).getLastD dfltPoint := by
      simp [List.getLastD]
    have hpair := pairSeconds_le a b ta tb hta htb hab
    simp only [movingSeconds, hlast, List.getD_cons_zero] at ih ⊢
    rw [hta]
    rw [htb] at ih
    simp only [Option.getD_some] at ih ⊢
    omega

/-- C10: for a trajectory of at least two points whose timestamps are
all present and non-decreasing in sequence order, the seconds
accumulated by the moving-duration loop are at most the overall time
span, last timestamp minus first timestamp. -/
theorem moving_le_total_span (points : List TrackPoint)
    (_hlen : 2 ≤ points.length)
    (hts : ∀ p ∈ points, p.timestamp ≠ none)
    (hchain : List.Chain' (fun a b => a.timestamp.getD 0 ≤ b.timestamp.getD 0) points) :
    movingSeconds points ≤
      (points.getLastD dfltPoint).timestamp.getD 0 -
        (points.getD 0 dfltPoint).timestamp.getD 0 :=
  movingSeconds_le_span points hts hchain

theorem moving_le_total_span_witness :
    movingSeconds c2ex ≤
      (c2ex.getLastD dfltPoint).timestamp.getD 0 -
        (c2ex.getD 0 dfltPoint).timestamp.getD 0 :=
  moving_le_total_span c2ex (by decide) (by decide)
    (by simp [c2ex, List.chain'_cons])

/-! ## Geometry guards and turn classification: claims C6, C9 -/

theorem tolerance_pos : 0 < tolerance := Real.rpow_pos_of_pos (by norm_num) _

theorem tolerance_lt_em9 : tolerance < 1 / 10 ^ 9 := by
  have h1 : tolerance < (10 : ℝ) ^ (-9 : ℝ) :=
    (Real.rpow_lt_rpow_left_iff (by norm_num : (1:ℝ) < 10)).mpr (by norm_num)
  have h2 : (10 : ℝ) ^ (-9 : ℝ) = 1 / 10 ^ 9 := by
    rw [show (-9 : ℝ) = -((9 : ℕ) : ℝ) by norm_num, Real.rpow_neg (by norm_num),
      Real.rpow_natCast]
    norm_num
  rw [← h2]; exact h1

/-- C9: neither geometric classifier divides by zero.  `checkStraight`
evaluates its cosine quotient only when both squared segment lengths
reach `tolerance` and otherwise returns not-straight; `calculateLeft`
evaluates its normalized cross product only when both segment lengths
reach `0.00005` and otherwise returns not-a-turn; whenever the quotient
is evaluated, its denominator is strictly positive. -/
theorem classifiers_guard_division (a b c : ℝ × ℝ) :
    ((b.1 - a.1) * (b.1 - a.1) + (b.2 - a.2) * (b.2 - a.2) < tolerance ∨
        (c.1 - b.1) * (c.1 - b.1) + (c.2 - b.2) * (c.2 - b.2) < tolerance →
      ¬ checkStraight a b c) ∧
    (checkStraight a b c →
      0 < Real.sqrt ((b.1 - a.1) * (b.1 - a.1) + (b.2 - a.2) * (b.2 - a.2)) *
          Real.sqrt ((c.1 - b.1) * (c.1 - b.1) + (c.2 - b.2) * (c.2 - b.2))) ∧
    (Real.sqrt ((b.1 - a.1) * (b.1 - a.1) + (b.2 - a.2) * (b.2 - a.2)) < 0.00005 ∨
        Real.sqrt ((c.1 - b.1) * (c.1 - b.1) + (c.2 - b.2) * (c.2 - b.2)) < 0.00005 →
      ¬ calculateLeft a b c) ∧
    (calculateLeft a b c →
      0 < Real.sqrt ((b.1 - a.1) * (b.1 - a.1) + (b.2 - a.2) * (b.2 - a.2)) *
          Real.sqrt ((c.1 - b.1) * (c.1 - b.1) + (c.2 - b.2) * (c.2 - b.2))) := by
  refine ⟨?_, ?_, ?_, ?_⟩
  · intro hg hcs
    simp only [checkStraight] at hcs
    rw [if_pos hg] at hcs
    exact hcs
  · intro hcs
    simp only [checkStraight] at hcs
    by_cases hg :
        (b.1 - a.1) * (b.1 - a.1) + (b.2 - a.2) * (b.2 - a.2) < tolerance ∨
          (c.1 - b.1) * (c.1 - b.1) + (c.2 - b.2) * (c.2 - b.2) < tolerance
    · rw [if_pos hg] at hcs
      exact absurd hcs not_false
    · push_neg at hg
      exact mul_pos (Real.sqrt_pos.mpr (lt_of_lt_of_le tolerance_pos hg.1))
        (Real.sqrt_pos.mpr (lt_of_lt_of_le tolerance_pos hg.2))
  · intro hg hcl
    simp only [calculateLeft] at hcl
    rw [if_pos hg] at hcl
    exact hcl
  · intro hcl
    by_cases hg :
        Real.sqrt ((b.1 - a.1) * (b.1 - a.1) + (b.2 - a.2) * (b.2 - a.2)) < 0.00005 ∨
          Real.sqrt ((c.1 - b.1) * (c.1 - b.1) + (c.2 - b.2) * (c.2 - b.2)) < 0.00005
    · simp only [calculateLeft] at hcl
      rw [if_pos hg] at hcl
      exact absurd hcl not_false
    · push_neg at hg
      have h5 : (0 : ℝ) < 0.00005 := by norm_num
      exact mul_pos (lt_of_lt_of_le h5 hg.1) (lt_of_lt_of_le h5 hg.2)

theorem classifiers_guard_division_witness :
    ¬ checkStraight (0, 0) (0, 0) (1, 1) ∧ ¬ calculateLeft (0, 0) (0, 0) (1, 1) := by
  have h := classifiers_guard_division (0, 0) (0, 0) (1, 1)
  simp only [] at h
  have hz : ((0 : ℝ) - 0) * ((0 : ℝ) - 0) + ((0 : ℝ) - 0) * ((0 : ℝ) - 0) = 0 := by
    norm_num
  refine ⟨h.1 (Or.inl ?_), h.2.2.1 (Or.inl ?_)⟩
  · rw [hz]; exact tolerance_pos
  · rw [hz, Real.sqrt_zero]; norm_num

/-- C6: during the detector scan (indices `2 ≤ i ≤ n - 3`), the point at
index `i` is classified as a left turn exactly when its speed is at or
above 3 knots, both displacement vectors `u = b - a` and `v = c - b`
built in `(lon, lat)` order from the points two indices away have length
at least `0.00005`, and the cross product of `u` and `v` divided by the
product of their lengths exceeds `0.3`. -/
theorem left_classification_iff (points : List TrackPoint) (i : ℕ)
    (_h1 : 2 ≤ i) (_h2 : i + 2 < points.length) :
    leftAt points i ↔
      (let a := points.getD (i - 2) dfltPoint
       let b := points.getD i dfltPoint
       let c := points.getD (i + 2) dfltPoint
       let ux := b.lon - a.lon
       let uy := b.lat - a.lat
       let vx := c.lon - b.lon
       let vy := c.lat - b.lat
       3 ≤ b.speed_knots ∧
       0.00005 ≤ Real.sqrt (ux * ux + uy * uy) ∧
       0.00005 ≤ Real.sqrt (vx * vx + vy * vy) ∧
       0.3 < (ux * vy - uy * vx) /
         (Real.sqrt (ux * ux + uy * uy) * Real.sqrt (vx * vx + vy * vy))) := by
  simp only [leftAt, calculateLeft]
  by_cases hs : (points.getD i dfltPoint).speed_knots < 3
  · rw [if_pos hs]
    simp only [false_iff]
    rintro ⟨hge, -⟩
    exact absurd hge (not_le.mpr hs)
  · rw [if_neg hs]
    push_neg at hs
    by_cases hg :
        Real.sqrt (((points.getD i dfltPoint).lon - (points.getD (i - 2) dfltPoint).lon) *
              ((points.getD i dfltPoint).lon - (points.getD (i - 2) dfltPoint).lon) +
            ((points.getD i dfltPoint).lat - (points.getD (i - 2) dfltPoint).lat) *
              ((points.getD i dfltPoint).lat - (points.getD (i - 2) dfltPoint).lat)) <
          0.00005 ∨
        Real.sqrt (((points.getD (i + 2) dfltPoint).lon - (points.getD i dfltPoint).lon) *
              ((points.getD (i + 2) dfltPoint).lon - (points.getD i dfltPoint).lon) +
            ((points.getD (i + 2) dfltPoint).lat - (points.getD i dfltPoint).lat) *
              ((points.getD (i + 2) dfltPoint).lat - (points.getD i dfltPoint).lat)) <
          0.00005
    · rw [if_pos hg]
      simp only [false_iff]
      rintro ⟨-, hA, hB, -⟩
      rcases hg with h | h
      · exact absurd hA (not_le.mpr h)
      · exact absurd hB (not_le.mpr h)
    · rw [if_neg hg]
      push_neg at hg
      constructor
      · intro h
        exact ⟨hs, hg.1, hg.2, h⟩
      · intro h
        exact h.2.2.2

/-- Five concrete points: a straight eastward run at 6 knots. -/
def c6ex : List TrackPoint :=
  [⟨0, 0, 6, none⟩, ⟨0, 1, 6, none⟩, ⟨0, 2, 6, none⟩, ⟨0, 3, 6, none⟩, ⟨0, 4, 6, none⟩]

theorem left_classification_iff_witness :
    leftAt c6ex 2 ↔
      (let a := c6ex.getD (2 - 2) dfltPoint
       let b := c6ex.getD 2 dfltPoint
       let c := c6ex.getD (2 + 2) dfltPoint
       let ux := b.lon - a.lon
       let uy := b.lat - a.lat
       let vx := c.lon - b.lon
       let vy := c.lat - b.lat
       3 ≤ b.speed_knots ∧
       0.00005 ≤ Real.sqrt (ux * ux + uy * uy) ∧
       0.00005 ≤ Real.sqrt (vx * vx + vy * vy) ∧
       0.3 < (ux * vy - uy * vx) /
         (Real.sqrt (ux * ux + uy * uy) * Real.sqrt (vx * vx + vy * vy))) :=
  left_classification_iff c6ex 2 (by decide) (by decide)

/-! ## Cleaner: claims C3, C4, C7 -/

theorem getD_mem {α : Type} (l : List α) (i : ℕ) (d : α) (h : i < l.length) :
    l.getD i d ∈ l := by
  induction l generalizing i with
  | nil => simp at h
  | cons a t ih =>
    cases i with
    | zero => simp [List.getD_cons_zero]
    | succ j =>
      rw [List.getD_cons_succ]
      exact List.mem_cons_of_mem _ (ih j (by simpa using h))

theorem lastMoving_none (l : List TrackPoint) :
    lastMoving l = none ↔ ∀ p ∈ l, p.speed_knots ≤ 5 := by
  induction l with
  | nil => simp [lastMoving]
  | cons p ps ih =>
    rw [lastMoving]
    cases hlm : lastMoving ps with
    | some i =>
      simp only []
      constructor
      · intro hc; simp at hc
      · intro hall
        have hn := ih.mpr fun q hq => hall q (List.mem_cons_of_mem _ hq)
        rw [hlm] at hn
        simp at hn
    | none =>
      by_cases hp : p.speed_knots > 5
      · rw [if_pos hp]
        constructor
        · intro hc; simp at hc
        · intro hall
          exact absurd hp (not_lt.mpr (hall p (List.mem_cons_self p ps)))
      · rw [if_neg hp]
        refine ⟨fun _ q hq => ?_, fun _ => rfl⟩
        rcases List.mem_cons.mp hq with rfl | hq2
        · exact not_lt.mp hp
        · exact ih.mp hlm q hq2

theorem lastMoving_some (l : List TrackPoint) (e : ℕ) (h : lastMoving l = some e) :
    e < l.length ∧ 5 < (l.getD e dfltPoint).speed_knots := by
  induction l generalizing e with
  | nil => simp [lastMoving] at h
  | cons p ps ih =>
    rw [lastMoving] at h
    cases hlm : lastMoving ps with
    | some i =>
      rw [hlm] at h
      simp only [Option.some.injEq] at h
      subst h
      obtain ⟨h1, h2⟩ := ih i hlm
      refine ⟨by simpa using h1, ?_⟩
      rw [List.getD_cons_succ]
      exact h2
    | none =>
      rw [hlm] at h
      by_cases hp : p.speed_knots > 5
      · rw [if_pos hp] at h
        simp only [Option.some.injEq] at h
        subst h
        exact ⟨by simp, by simpa [List.getD_cons_zero] using hp⟩
      · rw [if_neg hp] at h
        simp at h

theorem lastMoving_after (l : List TrackPoint) (e : ℕ) (h : lastMoving l = some e) :
    ∀ j, e < j → j < l.length → (l.getD j dfltPoint).speed_knots ≤ 5 := by
  induction l generalizing e with
  | nil => simp [lastMoving] at h
  | cons p ps ih =>
    rw [lastMoving] at h
    intro j hej hjl
    cases hlm : lastMoving ps with
    | some i =>
      rw [hlm] at h
      simp only [Option.some.injEq] at h
      subst h
      cases j with
      | zero => omega
      | succ j0 =>
        rw [List.getD_cons_succ]
        exact ih i hlm j0 (by omega) (by simpa using hjl)
    | none =>
      rw [hlm] at h
      have hall := (lastMoving_none ps).mp hlm
      cases j with
      | zero => omega
      | succ j0 =>
        rw [List.getD_cons_succ]
        exact hall _ (getD_mem ps j0 dfltPoint (by simpa using hjl))

/-- Invariant of the forward pass of `clean`: the output is empty exactly
while no point has been kept, the leading-skip flag is still unset in
that case, and a non-empty output starts with a point above 5 knots. -/
def InvC (s : CleanState) : Prop :=
  (s.acc = [] ↔ s.last_kept = none) ∧
  (s.last_kept = none → s.start_parked = false) ∧
  (s.acc ≠ [] → 5 < (s.acc.getD 0 dfltPoint).speed_knots)

lemma invC_init : InvC ⟨false, none, []⟩ :=
  ⟨by simp, fun _ => rfl, fun h => absurd rfl h⟩

lemma invC_step (points : List TrackPoint) (e p : ℕ) (s : CleanState) (h : InvC s) :
    InvC (cleanStep points e s p) ∧ (s.acc ≠ [] → (cleanStep points e s p).acc ≠ []) := by
  obtain ⟨sp0, lk0, acc0⟩ := s
  obtain ⟨hiff, hpk, hhead⟩ := h
  simp only [] at hiff hpk hhead
  by_cases hskip : (points.getD p dfltPoint).speed_knots ≤ 5 ∧ sp0 = false
  · rw [cleanStep, if_pos hskip]
    exact ⟨⟨hiff, hpk, hhead⟩, id⟩
  · cases lk0 with
    | none =>
      have hacc : acc0 = [] := hiff.mpr rfl
      subst hacc
      have hparked : sp0 = false := hpk rfl
      subst hparked
      have hfast : ¬ (points.getD p dfltPoint).speed_knots ≤ 5 := fun hle => hskip ⟨hle, rfl⟩
      rw [cleanStep, if_neg hskip]
      simp only []
      refine ⟨⟨by simp, by simp, ?_⟩, fun _ => by simp⟩
      intro _
      simpa using not_le.mp hfast
    | some lk =>
      have hacc : acc0 ≠ [] := fun hnil => Option.some_ne_none lk (hiff.mp hnil)
      rw [cleanStep, if_neg hskip]
      simp only []
      by_cases hj : |lk.lat - (points.getD p dfltPoint).lat| > 0.25 ∨
          |lk.lon - (points.getD p dfltPoint).lon| > 0.25
      · rw [if_pos hj]
        exact ⟨⟨⟨fun hh => absurd hh hacc, fun hh => absurd hh (Option.some_ne_none lk)⟩,
          fun hh => absurd hh (Option.some_ne_none lk), hhead⟩, fun _ => hacc⟩
      · rw [if_neg hj]
        by_cases hst : p < e ∧
            checkStraight
              ((points.getD (p - 1) dfltPoint).lat, (points.getD (p - 1) dfltPoint).lon)
              ((points.getD p dfltPoint).lat, (points.getD p dfltPoint).lon)
              ((points.getD (p + 1) dfltPoint).lat, (points.getD (p + 1) dfltPoint).lon)
        · rw [if_pos hst]
          exact ⟨⟨⟨fun hh => absurd hh hacc, fun hh => absurd hh (Option.some_ne_none lk)⟩,
            fun hh => absurd hh (Option.some_ne_none lk), hhead⟩, fun _ => hacc⟩
        · rw [if_neg hst]
          refine ⟨⟨⟨fun hh => absurd hh (by simp), fun hh => absurd hh (by simp)⟩,
            fun hh => absurd hh (by simp), ?_⟩, fun _ => by simp⟩
          intro _
          cases acc0 with
          | nil => exact absurd rfl hacc
          | cons a t => simpa using hhead (by simp)

lemma invC_foldl (points : List TrackPoint) (e : ℕ) (l : List ℕ) (s : CleanState)
    (h : InvC s) :
    InvC (List.foldl (cleanStep points e) s l) ∧
      (s.acc ≠ [] → (List.foldl (cleanStep points e) s l).acc ≠ []) := by
  induction l generalizing s with
  | nil => exact ⟨h, id⟩
  | cons a t ih =>
    rw [List.foldl_cons]
    obtain ⟨h1, h2⟩ := invC_step points e a s h
    obtain ⟨h3, h4⟩ := ih (cleanStep points e s a) h1
    exact ⟨h3, fun hne => h4 (h2 hne)⟩

lemma cleanStep_last_ne_nil (points : List TrackPoint) (e : ℕ) (s : CleanState)
    (h : InvC s) (hfast : 5 < (points.getD e dfltPoint).speed_knots) :
    (cleanStep points e s e).acc ≠ [] := by
  by_cases hacc : s.acc = []
  · obtain ⟨hiff, hpk, _⟩ := h
    have hlk := hiff.mp hacc
    have hsp := hpk hlk
    obtain ⟨sp0, lk0, acc0⟩ := s
    simp only [] at hacc hlk hsp
    subst hacc; subst hlk; subst hsp
    rw [cleanStep, if_neg (fun hc => absurd hc.1 (not_le.mpr hfast))]
    simp
  · exact (invC_step points e e s h).2 hacc

lemma clean_ne_nil (points : List TrackPoint) (e : ℕ) (hlm : lastMoving points = some e)
    (he0 : e ≠ 0) : clean points ≠ [] := by
  unfold clean
  rw [hlm]
  simp only []
  rw [if_neg he0]
  rw [List.range_succ, List.foldl_append]
  simp only [List.foldl_cons, List.foldl_nil]
  exact cleanStep_last_ne_nil points e _
    (invC_foldl points e (List.range e) _ invC_init).1
    (lastMoving_some points e hlm).2

/-- C3 (amended): the Cleaner output is empty exactly when every point at
index 1 or later is at or below 5 knots.  A moving point at index 0
alone does not prevent emptiness: the trailing trim leaves `end_idx = 0`
and the code returns the empty list in that case. -/
theorem clean_empty_iff_no_later_fast (points : List TrackPoint) :
    clean points = [] ↔
      ∀ i, 1 ≤ i → i < points.length → (points.getD i dfltPoint).speed_knots ≤ 5 := by
  constructor
  · intro h i h1 hi
    by_contra hfast
    push_neg at hfast
    rcases hlm : lastMoving points with _ | e
    · exact absurd ((lastMoving_none points).mp hlm _ (getD_mem points i dfltPoint hi))
        (not_le.mpr hfast)
    · by_cases he0 : e = 0
      · subst he0
        exact absurd (lastMoving_after points 0 hlm i (by omega) hi) (not_le.mpr hfast)
      · exact absurd h (clean_ne_nil points e hlm he0)
  · intro hall
    rcases hlm : lastMoving points with _ | e
    · unfold clean
      rw [hlm]
    · have he0 : e = 0 := by
        by_contra he0
        have hlt := (lastMoving_some points e hlm).1
        have hfast := (lastMoving_some points e hlm).2
        exact absurd hfast (not_lt.mpr (hall e (by omega) hlt))
      subst he0
      unfold clean
      rw [hlm]
      simp

/-- A fast point followed by a parked point: only index 0 moves. -/
def c3ex : List TrackPoint := [⟨0, 0, 20, some 0⟩, ⟨0, 0, 0, some 1⟩]

/-- C3 counterexample: the input contains a point strictly above 5 knots
(at index 0), yet the Cleaner returns the empty list, because the
trailing-parked trim leaves `end_idx = 0` and `end_idx <= 0` exits. -/
theorem clean_empty_despite_fast_head :
    5 < (c3ex.getD 0 dfltPoint).speed_knots ∧ clean c3ex = [] := by
  constructor
  · decide
  · unfold clean
    rw [show lastMoving c3ex = some 0 from by decide]
    simp

theorem clean_empty_iff_witness : clean c3ex = [] :=
  (clean_empty_iff_no_later_fast c3ex).mpr (by
    intro i h1 h2
    have hi : i = 1 := by
      simp [c3ex] at h2
      omega
    subst hi
    decide)

/-- C4 (amended): the first point of a non-empty Cleaner output always
has speed strictly above 5 knots, so the leading-parked skip of a second
run drops nothing; the corresponding statement for the last point fails
(see the counterexample), so the trailing trim of a second run can
remove further points. -/
theorem clean_head_fast (points : List TrackPoint) (h : clean points ≠ []) :
    5 < ((clean points).getD 0 dfltPoint).speed_knots := by
  rcases hlm : lastMoving points with _ | e
  · unfold clean at h
    rw [hlm] at h
    simp at h
  · by_cases he0 : e = 0
    · subst he0
      unfold clean at h
      rw [hlm] at h
      simp at h
    · unfold clean at h ⊢
      rw [hlm] at h ⊢
      simp only [] at h ⊢
      rw [if_neg he0] at h ⊢
      exact (invC_foldl points e (List.range (e + 1)) _ invC_init).1.2.2 h

lemma abs_not_gt (x c : ℝ) (h1 : -c ≤ x) (h2 : x ≤ c) : ¬ |x| > c :=
  not_lt.mpr (abs_le.mpr ⟨h1, h2⟩)

lemma cleanStep_keep_first (points : List TrackPoint) (e p : ℕ)
    (hfast : ¬ (points.getD p dfltPoint).speed_knots ≤ 5) :
    cleanStep points e ⟨false, none, []⟩ p =
      ⟨true, some (points.getD p dfltPoint), [points.getD p dfltPoint]⟩ := by
  rw [cleanStep, if_neg (fun hc => hfast hc.1)]
  simp

lemma cleanStep_skip_drop (points : List TrackPoint) (e p : ℕ) (lk : TrackPoint)
    (acc : List TrackPoint)
    (hdrop : (|lk.lat - (points.getD p dfltPoint).lat| > 0.25 ∨
        |lk.lon - (points.getD p dfltPoint).lon| > 0.25) ∨
      (p < e ∧ checkStraight
        ((points.getD (p - 1) dfltPoint).lat, (points.getD (p - 1) dfltPoint).lon)
        ((points.getD p dfltPoint).lat, (points.getD p dfltPoint).lon)
        ((points.getD (p + 1) dfltPoint).lat, (points.getD (p + 1) dfltPoint).lon))) :
    cleanStep points e ⟨true, some lk, acc⟩ p = ⟨true, some lk, acc⟩ := by
  rw [cleanStep, if_neg (fun hc => by simpa using hc.2)]
  simp only []
  by_cases hj : |lk.lat - (points.getD p dfltPoint).lat| > 0.25 ∨
      |lk.lon - (points.getD p dfltPoint).lon| > 0.25
  · rw [if_pos hj]
  · rcases hdrop with hd | hd
    · exact absurd hd hj
    · rw [if_neg hj, if_pos hd]

lemma cleanStep_keep_next (points : List TrackPoint) (e p : ℕ) (lk : TrackPoint)
    (acc : List TrackPoint)
    (hnj : ¬(|lk.lat - (points.getD p dfltPoint).lat| > 0.25 ∨
        |lk.lon - (points.getD p dfltPoint).lon| > 0.25))
    (hns : ¬(p < e ∧ checkStraight
        ((points.getD (p - 1) dfltPoint).lat, (points.getD (p - 1) dfltPoint).lon)
        ((points.getD p dfltPoint).lat, (points.getD p dfltPoint).lon)
        ((points.getD (p + 1) dfltPoint).lat, (points.getD (p + 1) dfltPoint).lon))) :
    cleanStep points e ⟨true, some lk, acc⟩ p =
      ⟨true, some (points.getD p dfltPoint), acc ++ [points.getD p dfltPoint]⟩ := by
  rw [cleanStep, if_neg (fun hc => by simpa using hc.2)]
  simp only []
  rw [if_neg hnj, if_neg hns]

lemma checkStraight_of_uniform (x1 y1 x2 y2 x3 y3 dx dy : ℝ)
    (e1 : x2 - x1 = dx) (e2 : y2 - y1 = dy) (e3 : x3 - x2 = dx) (e4 : y3 - y2 = dy)
    (hmag : tolerance ≤ dx * dx + dy * dy) :
    checkStraight (x1, y1) (x2, y2) (x3, y3) := by
  simp only [checkStraight]
  rw [e1, e2, e3, e4]
  rw [if_neg (by push_neg; exact ⟨hmag, hmag⟩)]
  have hpos : (0:ℝ) < dx * dx + dy * dy := lt_of_lt_of_le tolerance_pos hmag
  constructor
  · have hw : dx * dy - dy * dx = 0 := by ring
    rw [hw, abs_zero]
    exact tolerance_pos
  · rw [Real.mul_self_sqrt (le_of_lt hpos), div_self (ne_of_gt hpos)]
    norm_num

lemma not_checkStraight_c4 :
    ¬ checkStraight ((0:ℝ), (0:ℝ)) ((0.1:ℝ), (0:ℝ)) ((0.1:ℝ), (0.4:ℝ)) := by
  simp only [checkStraight]
  rw [if_neg (by push_neg; constructor <;> nlinarith [tolerance_lt_em9])]
  rintro ⟨h1, -⟩
  have he : ((0.1:ℝ) - 0) * (0.4 - 0) - (0 - 0) * (0.1 - 0.1) = 0.04 := by norm_num
  rw [he, abs_of_pos (by norm_num : (0:ℝ) < 0.04)] at h1
  have := tolerance_lt_em9
  linarith

/-- Fast, then a parked point within jump range, then a fast point that
jump rejection discards (0.4 degrees of longitude away). -/
noncomputable def c4ex : List TrackPoint :=
  [⟨0, 0, 20, none⟩, ⟨0.1, 0, 0, none⟩, ⟨0.1, 0.4, 20, none⟩]

lemma clean_c4ex : clean c4ex = [⟨0, 0, 20, none⟩, ⟨0.1, 0, 0, none⟩] := by
  have hlm : lastMoving c4ex = some 2 := by decide
  unfold clean
  rw [hlm]
  simp only []
  rw [if_neg (by norm_num : (2:ℕ) ≠ 0)]
  rw [show List.range 3 = [0, 1, 2] from rfl]
  rw [List.foldl_cons, List.foldl_cons, List.foldl_cons, List.foldl_nil]
  rw [cleanStep_keep_first c4ex 2 0 (by decide)]
  rw [cleanStep_keep_next c4ex 2 1 _ _
    (by
      rintro (h | h)
      · exact abs_not_gt _ _ (by norm_num [c4ex]) (by norm_num [c4ex]) h
      · exact abs_not_gt _ _ (by norm_num [c4ex]) (by norm_num [c4ex]) h)
    (by
      rintro ⟨-, hcs⟩
      exact not_checkStraight_c4 hcs)]
  rw [cleanStep_skip_drop c4ex 2 2 _ _
    (Or.inl (Or.inr (by norm_num [c4ex, lt_abs])))]
  rfl

lemma clean_clean_c4ex : clean (clean c4ex) = [] := by
  rw [clean_c4ex]
  have hlm : lastMoving [(⟨0, 0, 20, none⟩ : TrackPoint), ⟨0.1, 0, 0, none⟩] = some 0 := by
    decide
  unfold clean
  rw [hlm]
  simp

/-- C4 counterexample: this cleaned output ends in a parked point (the
final fast point was discarded by jump rejection), so the trailing trim
of a second Cleaner run removes it: re-cleaning empties the output. -/
theorem reclean_removes_trailing :
    clean c4ex = [⟨0, 0, 20, none⟩, ⟨0.1, 0, 0, none⟩] ∧
    ((⟨0.1, 0, 0, none⟩ : TrackPoint).speed_knots ≤ 5) ∧
    clean (clean c4ex) = [] :=
  ⟨clean_c4ex, by decide, clean_clean_c4ex⟩

theorem clean_head_fast_witness : 5 < ((clean c4ex).getD 0 dfltPoint).speed_knots :=
  clean_head_fast c4ex (by rw [clean_c4ex]; simp)

/-- Seven collinear points with uniform spacing `(dlat, dlon)` per step
and a common speed. -/
noncomputable def seven (lat0 lon0 dlat dlon : ℝ) (sp : ℚ) : List TrackPoint :=
  [⟨lat0, lon0, sp, none⟩,
   ⟨lat0 + dlat, lon0 + dlon, sp, none⟩,
   ⟨lat0 + 2*dlat, lon0 + 2*dlon, sp, none⟩,
   ⟨lat0 + 3*dlat, lon0 + 3*dlon, sp, none⟩,
   ⟨lat0 + 4*dlat, lon0 + 4*dlon, sp, none⟩,
   ⟨lat0 + 5*dlat, lon0 + 5*dlon, sp, none⟩,
   ⟨lat0 + 6*dlat, lon0 + 6*dlon, sp, none⟩]

/-- C7 (amended): seven collinear uniformly spaced points above 5 knots
are thinned to first and last, provided the per-step squared length
reaches the collinearity tolerance and the total displacement stays
within the 0.25-degree jump-rejection window on each axis. -/
theorem clean_collinear_seven (lat0 lon0 dlat dlon : ℝ) (sp : ℚ)
    (hsp : 5 < sp) (hmag : tolerance ≤ dlat * dlat + dlon * dlon)
    (hlat : |6 * dlat| ≤ 0.25) (hlon : |6 * dlon| ≤ 0.25) :
    clean (seven lat0 lon0 dlat dlon sp) =
      [⟨lat0, lon0, sp, none⟩, ⟨lat0 + 6*dlat, lon0 + 6*dlon, sp, none⟩] := by
  have hlm : lastMoving (seven lat0 lon0 dlat dlon sp) = some 6 := by
    simp [seven, lastMoving, hsp]
  have hc1 : checkStraight (lat0, lon0) (lat0 + dlat, lon0 + dlon)
      (lat0 + 2*dlat, lon0 + 2*dlon) :=
    checkStraight_of_uniform _ _ _ _ _ _ dlat dlon (by ring) (by ring) (by ring) (by ring) hmag
  have hc2 : checkStraight (lat0 + dlat, lon0 + dlon) (lat0 + 2*dlat, lon0 + 2*dlon)
      (lat0 + 3*dlat, lon0 + 3*dlon) :=
    checkStraight_of_uniform _ _ _ _ _ _ dlat dlon (by ring) (by ring) (by ring) (by ring) hmag
  have hc3 : checkStraight (lat0 + 2*dlat, lon0 + 2*dlon) (lat0 + 3*dlat, lon0 + 3*dlon)
      (lat0 + 4*dlat, lon0 + 4*dlon) :=
    checkStraight_of_uniform _ _ _ _ _ _ dlat dlon (by ring) (by ring) (by ring) (by ring) hmag
  have hc4 : checkStraight (lat0 + 3*dlat, lon0 + 3*dlon) (lat0 + 4*dlat, lon0 + 4*dlon)
      (lat0 + 5*dlat, lon0 + 5*dlon) :=
    checkStraight_of_uniform _ _ _ _ _ _ dlat dlon (by ring) (by ring) (by ring) (by ring) hmag
  have hc5 : checkStraight (lat0 + 4*dlat, lon0 + 4*dlon) (lat0 + 5*dlat, lon0 + 5*dlon)
      (lat0 + 6*dlat, lon0 + 6*dlon) :=
    checkStraight_of_uniform _ _ _ _ _ _ dlat dlon (by ring) (by ring) (by ring) (by ring) hmag
  have h6 := abs_le.mp hlat
  have h7 := abs_le.mp hlon
  unfold clean
  rw [hlm]
  simp only []
  rw [if_neg (by norm_num : (6:ℕ) ≠ 0)]
  rw [show List.range 7 = [0, 1, 2, 3, 4, 5, 6] from rfl]
  rw [List.foldl_cons, List.foldl_cons, List.foldl_cons, List.foldl_cons,
    List.foldl_cons, List.foldl_cons, List.foldl_cons, List.foldl_nil]
  rw [cleanStep_keep_first (seven lat0 lon0 dlat dlon sp) 6 0 (by
    show ¬ (sp : ℚ) ≤ 5
    exact not_le.mpr hsp)]
  rw [cleanStep_skip_drop (seven lat0 lon0 dlat dlon sp) 6 1 _ _ (Or.inr ⟨by norm_num, hc1⟩)]
  rw [cleanStep_skip_drop (seven lat0 lon0 dlat dlon sp) 6 2 _ _ (Or.inr ⟨by norm_num, hc2⟩)]
  rw [cleanStep_skip_drop (seven lat0 lon0 dlat dlon sp) 6 3 _ _ (Or.inr ⟨by norm_num, hc3⟩)]
  rw [cleanStep_skip_drop (seven lat0 lon0 dlat dlon sp) 6 4 _ _ (Or.inr ⟨by norm_num, hc4⟩)]
  rw [cleanStep_skip_drop (seven lat0 lon0 dlat dlon sp) 6 5 _ _ (Or.inr ⟨by norm_num, hc5⟩)]
  rw [cleanStep_keep_next (seven lat0 lon0 dlat dlon sp) 6 6 _ _
    (by
      rintro (h | h)
      · refine abs_not_gt _ _ ?_ ?_ h
        · show -(0.25:ℝ) ≤ lat0 - (lat0 + 6*dlat)
          linarith
        · show lat0 - (lat0 + 6*dlat) ≤ (0.25:ℝ)
          linarith
      · refine abs_not_gt _ _ ?_ ?_ h
        · show -(0.25:ℝ) ≤ lon0 - (lon0 + 6*dlon)
          linarith
        · show lon0 - (lon0 + 6*dlon) ≤ (0.25:ℝ)
          linarith)
    (by
      rintro ⟨h, -⟩
      exact absurd h (by norm_num))]
  rfl

theorem clean_collinear_seven_witness :
    clean (seven 0 0 (1/100) 0 6) =
      [⟨0, 0, 6, none⟩, ⟨0 + 6*(1/100), 0 + 6*0, 6, none⟩] :=
  clean_collinear_seven 0 0 (1/100) 0 6 (by norm_num)
    (by
      have h := tolerance_lt_em9
      norm_num at h ⊢
      linarith)
    (by rw [abs_le]; norm_num)
    (by rw [abs_le]; norm_num)

lemma clean_seven_big : clean (seven 0 0 (3/10) 0 6) = [⟨0, 0, 6, none⟩] := by
  have hlm : lastMoving (seven 0 0 (3/10) 0 6) = some 6 := by decide
  unfold clean
  rw [hlm]
  simp only []
  rw [if_neg (by norm_num : (6:ℕ) ≠ 0)]
  rw [show List.range 7 = [0, 1, 2, 3, 4, 5, 6] from rfl]
  rw [List.foldl_cons, List.foldl_cons, List.foldl_cons, List.foldl_cons,
    List.foldl_cons, List.foldl_cons, List.foldl_cons, List.foldl_nil]
  rw [cleanStep_keep_first (seven 0 0 (3/10) 0 6) 6 0 (by decide)]
  rw [cleanStep_skip_drop (seven 0 0 (3/10) 0 6) 6 1 _ _
    (Or.inl (Or.inl (by norm_num [seven, lt_abs])))]
  rw [cleanStep_skip_drop (seven 0 0 (3/10) 0 6) 6 2 _ _
    (Or.inl (Or.inl (by norm_num [seven, lt_abs])))]
  rw [cleanStep_skip_drop (seven 0 0 (3/10) 0 6) 6 3 _ _
    (Or.inl (Or.inl (by norm_num [seven, lt_abs])))]
  rw [cleanStep_skip_drop (seven 0 0 (3/10) 0 6) 6 4 _ _
    (Or.inl (Or.inl (by norm_num [seven, lt_abs])))]
  rw [cleanStep_skip_drop (seven 0 0 (3/10) 0 6) 6 5 _ _
    (Or.inl (Or.inl (by norm_num [seven, lt_abs])))]
  rw [cleanStep_skip_drop (seven 0 0 (3/10) 0 6) 6 6 _ _
    (Or.inl (Or.inl (by norm_num [seven, lt_abs])))]
  rfl

/-- C7 counterexample: seven collinear points with uniform spacing of
0.3 degrees of latitude per step, all at 6 knots.  Jump rejection (not
straight-run thinning) discards every point after the first, so the
Cleaner keeps only the first point, not first-and-last. -/
theorem collinear_wide_spacing_not_thinned :
    clean (seven 0 0 (3/10) 0 6) = [⟨0, 0, 6, none⟩] ∧
    clean (seven 0 0 (3/10) 0 6) ≠
      [⟨0, 0, 6, none⟩, ⟨0 + 6*(3/10), 0 + 6*0, 6, none⟩] := by
  refine ⟨clean_seven_big, ?_⟩
  rw [clean_seven_big]
  intro h
  have hlen := congrArg List.length h
  simp at hlen

/-! ## Detector landmarks: claim C8 -/

/-- The `(lat, lon)` coordinate pairs of a trajectory. -/
noncomputable def coordsOf (points : List TrackPoint) : List (ℝ × ℝ) :=
  points.map fun p => (p.lat, p.lon)

/-- A landmark is good when it is the componentwise mean of a non-empty
cluster of coordinates all drawn from the trajectory. -/
def goodLm (points : List TrackPoint) (lm : ℝ × ℝ) : Prop :=
  ∃ mem : List (ℝ × ℝ), mem ≠ [] ∧ (∀ q ∈ mem, q ∈ coordsOf points) ∧ lm = meanPair mem

/-- Scan invariant of `decorate`: all emitted landmarks are cluster
means and both open buffers contain only trajectory coordinates. -/
def InvD (points : List TrackPoint) (s : DetectState) : Prop :=
  (∀ lm ∈ s.stops, goodLm points lm) ∧ (∀ lm ∈ s.left_turns, goodLm points lm) ∧
  (∀ q ∈ s.stop_sight, q ∈ coordsOf points) ∧ (∀ q ∈ s.left_sight, q ∈ coordsOf points)

lemma invD_init (points : List TrackPoint) : InvD points ⟨[], [], [], []⟩ := by
  refine ⟨?_, ?_, ?_, ?_⟩ <;> simp

lemma invD_stopScan (points : List TrackPoint) (i : ℕ) (s : DetectState)
    (hi : i < points.length) (h : InvD points s) : InvD points (stopScan points s i) := by
  obtain ⟨h1, h2, h3, h4⟩ := h
  have hb : ((points.getD i dfltPoint).lat, (points.getD i dfltPoint).lon) ∈
      coordsOf points := List.mem_map_of_mem _ (getD_mem points i dfltPoint hi)
  unfold stopScan
  simp only []
  by_cases hsp : (points.getD i dfltPoint).speed_knots ≤ 5
  · rw [if_pos hsp]
    refine ⟨h1, h2, ?_, h4⟩
    intro q hq
    rcases List.mem_append.mp hq with hq | hq
    · exact h3 q hq
    · simp only [List.mem_singleton] at hq
      subst hq
      exact hb
  · rw [if_neg hsp]
    by_cases hne : s.stop_sight ≠ []
    · rw [if_pos hne]
      refine ⟨?_, h2, by simp, h4⟩
      intro lm hlm
      rcases List.mem_append.mp hlm with hlm | hlm
      · exact h1 lm hlm
      · simp only [List.mem_singleton] at hlm
        subst hlm
        exact ⟨s.stop_sight, hne, h3, rfl⟩
    · rw [if_neg hne]
      exact ⟨h1, h2, h3, h4⟩

lemma invD_turnScan (points : List TrackPoint) (i : ℕ) (s : DetectState)
    (hi : i < points.length) (h : InvD points s) : InvD points (turnScan points s i) := by
  obtain ⟨h1, h2, h3, h4⟩ := h
  have hb : ((points.getD i dfltPoint).lat, (points.getD i dfltPoint).lon) ∈
      coordsOf points := List.mem_map_of_mem _ (getD_mem points i dfltPoint hi)
  unfold turnScan
  simp only []
  by_cases hl : leftAt points i
  · rw [if_pos hl]
    refine ⟨h1, h2, h3, ?_⟩
    intro q hq
    rcases List.mem_append.mp hq with hq | hq
    · exact h4 q hq
    · simp only [List.mem_singleton] at hq
      subst hq
      exact hb
  · rw [if_neg hl]
    by_cases hne : s.left_sight ≠ []
    · rw [if_pos hne]
      refine ⟨h1, ?_, h3, by simp⟩
      intro lm hlm
      rcases List.mem_append.mp hlm with hlm | hlm
      · exact h2 lm hlm
      · simp only [List.mem_singleton] at hlm
        subst hlm
        exact ⟨s.left_sight, hne, h4, rfl⟩
    · rw [if_neg hne]
      exact ⟨h1, h2, h3, h4⟩

lemma invD_detectStep (points : List TrackPoint) (i : ℕ) (s : DetectState)
    (hi : i < points.length) (h : InvD points s) : InvD points (detectStep points s i) :=
  invD_turnScan points i _ hi (invD_stopScan points i s hi h)

lemma invD_foldl (points : List TrackPoint) (l : List ℕ) (s : DetectState)
    (hl : ∀ i ∈ l, i < points.length) (h : InvD points s) :
    InvD points (List.foldl (detectStep points) s l) := by
  induction l generalizing s with
  | nil => exact h
  | cons a t ih =>
    rw [List.foldl_cons]
    exact ih (detectStep points s a)
      (fun i hi => hl i (List.mem_cons_of_mem _ hi))
      (invD_detectStep points a s (hl a (List.mem_cons_self a t)) h)

lemma invD_finalFlush (points : List TrackPoint) (s : DetectState) (h : InvD points s) :
    InvD points (finalFlush s) := by
  obtain ⟨h1, h2, h3, h4⟩ := h
  unfold finalFlush
  simp only []
  by_cases hs : s.stop_sight ≠ []
  · rw [if_pos hs]
    have h1a : ∀ lm ∈ s.stops ++ [meanPair s.stop_sight], goodLm points lm := by
      intro lm hlm
      rcases List.mem_append.mp hlm with hlm | hlm
      · exact h1 lm hlm
      · simp only [List.mem_singleton] at hlm
        subst hlm
        exact ⟨s.stop_sight, hs, h3, rfl⟩
    by_cases hlft : s.left_sight ≠ []
    · rw [if_pos hlft]
      refine ⟨h1a, ?_, by simp, by simp⟩
      intro lm hlm
      rcases List.mem_append.mp hlm with hlm | hlm
      · exact h2 lm hlm
      · simp only [List.mem_singleton] at hlm
        subst hlm
        exact ⟨s.left_sight, hlft, h4, rfl⟩
    · rw [if_neg hlft]
      exact ⟨h1a, h2, by simp, h4⟩
  · rw [if_neg hs]
    by_cases hlft : s.left_sight ≠ []
    · rw [if_pos hlft]
      refine ⟨h1, ?_, h3, by simp⟩
      intro lm hlm
      rcases List.mem_append.mp hlm with hlm | hlm
      · exact h2 lm hlm
      · simp only [List.mem_singleton] at hlm
        subst hlm
        exact ⟨s.left_sight, hlft, h4, rfl⟩
    · rw [if_neg hlft]
      exact ⟨h1, h2, h3, h4⟩

lemma exists_min_mem (l : List ℝ) (h : l ≠ []) : ∃ m ∈ l, ∀ x ∈ l, m ≤ x := by
  induction l with
  | nil => exact absurd rfl h
  | cons a t ih =>
    rcases t with _ | ⟨b, t2⟩
    · exact ⟨a, by simp, by simp⟩
    · obtain ⟨m, hm, hmin⟩ := ih (by simp)
      by_cases hc : a ≤ m
      · refine ⟨a, by simp, ?_⟩
        intro x hx
        rcases List.mem_cons.mp hx with rfl | hx2
        · exact le_refl x
        · exact le_trans hc (hmin x hx2)
      · refine ⟨m, List.mem_cons_of_mem _ hm, ?_⟩
        intro x hx
        rcases List.mem_cons.mp hx with rfl | hx2
        · exact le_of_lt (not_le.mp hc)
        · exact hmin x hx2

lemma card_mul_le_sum (l : List ℝ) (m : ℝ) (h : ∀ x ∈ l, m ≤ x) :
    (l.length : ℝ) * m ≤ l.sum := by
  induction l with
  | nil => simp
  | cons a t ih =>
    have ha := h a (List.mem_cons_self a t)
    have ht := ih fun x hx => h x (List.mem_cons_of_mem _ hx)
    simp only [List.length_cons, List.sum_cons]
    push_cast
    linarith

lemma exists_le_mean (l : List ℝ) (h : l ≠ []) : ∃ x ∈ l, x ≤ l.sum / l.length := by
  obtain ⟨m, hm, hmin⟩ := exists_min_mem l h
  refine ⟨m, hm, ?_⟩
  have hlen : (0:ℝ) < l.length := by
    exact_mod_cast List.length_pos.mpr h
  rw [le_div_iff₀ hlen]
  calc m * (l.length : ℝ) = (l.length : ℝ) * m := by ring
  _ ≤ l.sum := card_mul_le_sum l m hmin

lemma sum_map_neg (l : List ℝ) : (l.map fun y => -y).sum = -l.sum := by
  induction l with
  | nil => simp
  | cons a t ih =>
    simp only [List.map_cons, List.sum_cons, ih]
    ring

lemma exists_mean_le (l : List ℝ) (h : l ≠ []) : ∃ x ∈ l, l.sum / l.length ≤ x := by
  obtain ⟨x, hx, hle⟩ := exists_le_mean (l.map fun y => -y) (by simpa using h)
  obtain ⟨y, hy, rfl⟩ := List.mem_map.mp hx
  refine ⟨y, hy, ?_⟩
  rw [sum_map_neg, List.length_map] at hle
  have heq : -l.sum / (l.length : ℝ) = -(l.sum / l.length) := by ring
  rw [heq] at hle
  linarith

/-- C8: every landmark emitted by the detector (stop or left-turn list)
is the componentwise arithmetic mean of a non-empty cluster of member
coordinates drawn from the trajectory, and therefore its latitude lies
between the minimum and maximum member latitude and its longitude
between the minimum and maximum member longitude. -/
theorem landmark_mean_in_bbox (points : List TrackPoint) (lm : ℝ × ℝ)
    (h : lm ∈ (decorate points).1 ∨ lm ∈ (decorate points).2) :
    ∃ mem : List (ℝ × ℝ), mem ≠ [] ∧ (∀ q ∈ mem, q ∈ coordsOf points) ∧
      lm = meanPair mem ∧
      (∃ q ∈ mem, q.1 ≤ lm.1) ∧ (∃ q ∈ mem, lm.1 ≤ q.1) ∧
      (∃ q ∈ mem, q.2 ≤ lm.2) ∧ (∃ q ∈ mem, lm.2 ≤ q.2) := by
  have hgood : goodLm points lm := by
    unfold decorate at h
    by_cases hn : points.length < 5
    · rw [if_pos hn] at h
      simp at h
    · rw [if_neg hn] at h
      simp only [] at h
      have hidx : ∀ i ∈ List.range' 2 (points.length - 4), i < points.length := by
        intro i hi
        have := List.mem_range'_1.mp hi
        omega
      have hInv := invD_finalFlush points _
        (invD_foldl points _ _ hidx (invD_init points))
      rcases h with h | h
      · exact hInv.1 lm h
      · exact hInv.2.1 lm h
  obtain ⟨mem, hne, hsub, hmean⟩ := hgood
  have hlm1 : lm.1 = (mem.map Prod.fst).sum / mem.length := by
    rw [hmean, meanPair]
  have hlm2 : lm.2 = (mem.map Prod.snd).sum / mem.length := by
    rw [hmean, meanPair]
  refine ⟨mem, hne, hsub, hmean, ?_, ?_, ?_, ?_⟩
  · obtain ⟨x, hx, hle⟩ := exists_le_mean (mem.map Prod.fst) (by simpa using hne)
    obtain ⟨q, hq, rfl⟩ := List.mem_map.mp hx
    refine ⟨q, hq, ?_⟩
    rw [hlm1]
    simpa [List.length_map] using hle
  · obtain ⟨x, hx, hle⟩ := exists_mean_le (mem.map Prod.fst) (by simpa using hne)
    obtain ⟨q, hq, rfl⟩ := List.mem_map.mp hx
    refine ⟨q, hq, ?_⟩
    rw [hlm1]
    simpa [List.length_map] using hle
  · obtain ⟨x, hx, hle⟩ := exists_le_mean (mem.map Prod.snd) (by simpa using hne)
    obtain ⟨q, hq, rfl⟩ := List.mem_map.mp hx
    refine ⟨q, hq, ?_⟩
    rw [hlm2]
    simpa [List.length_map] using hle
  · obtain ⟨x, hx, hle⟩ := exists_mean_le (mem.map Prod.snd) (by simpa using hne)
    obtain ⟨q, hq, rfl⟩ := List.mem_map.mp hx
    refine ⟨q, hq, ?_⟩
    rw [hlm2]
    simpa [List.length_map] using hle

/-- Five parked points at the origin: one stop cluster, no turns. -/
def stopEx : List TrackPoint :=
  [⟨0, 0, 0, some 0⟩, ⟨0, 0, 0, some 1⟩, ⟨0, 0, 0, some 2⟩,
   ⟨0, 0, 0, some 3⟩, ⟨0, 0, 0, some 4⟩]

lemma decorate_stopEx : decorate stopEx = ([((0:ℝ), (0:ℝ))], []) := by
  have hnl : ¬ leftAt stopEx 2 := by
    norm_num [leftAt, stopEx]
  have hlen : stopEx.length = 5 := rfl
  norm_num [decorate, detectStep, stopScan, turnScan, finalFlush, meanPair,
    hnl, hlen, List.range']
  norm_num [stopEx]

theorem landmark_mean_in_bbox_witness :
    ((0:ℝ), (0:ℝ)) ∈ (decorate stopEx).1 ∧
    ∃ mem : List (ℝ × ℝ), mem ≠ [] ∧ (∀ q ∈ mem, q ∈ coordsOf stopEx) ∧
      ((0:ℝ), (0:ℝ)) = meanPair mem ∧
      (∃ q ∈ mem, q.1 ≤ ((0:ℝ), (0:ℝ)).1) ∧ (∃ q ∈ mem, ((0:ℝ), (0:ℝ)).1 ≤ q.1) ∧
      (∃ q ∈ mem, q.2 ≤ ((0:ℝ), (0:ℝ)).2) ∧ (∃ q ∈ mem, ((0:ℝ), (0:ℝ)).2 ≤ q.2) := by
  have hmem : ((0:ℝ), (0:ℝ)) ∈ (decorate stopEx).1 := by
    rw [decorate_stopEx]
    simp
  exact ⟨hmem, landmark_mean_in_bbox stopEx ((0:ℝ), (0:ℝ)) (Or.inl hmem)⟩

end GpsToKml

